import Mathlib

/-!
# Verification of the technical-indicator and movers/alerts engine

Shallow embedding of the numerical core of a crypto trend dashboard:
the rolling-window statistics (`add_rolling` in `utils.py` and the
`rolling_mean` / `volatility` columns of `app.py`), the RSI and MACD
computations (`compute_rsi`, `compute_macd` in `utils.py`), and the
snapshot-to-snapshot movers/alerts engine (`merged`, `pct_change`,
`top_gainers` / `top_losers`, `alerts` in `app.py`, tab 3).

Prices are modelled as exact rationals (`ℚ`).  Several pipeline stages
in the source produce IEEE-754 non-finite values (`diff()` yields a
leading `NaN`; `avg_gain / avg_loss` and `pct_change` divide by zero,
yielding `inf`/`-inf`/`NaN`); the embedding makes those cases explicit:
`Option ℚ` columns use `none` for `NaN` (pandas' missing-value marker),
and the movers engine uses the four-case `PctChange` type so that the
infinities produced by a zero previous price are representable.
-/

namespace CryptoDash

/-! ## Exponentially weighted mean (`Series.ewm(..., adjust=False).mean()`)

With `adjust=False` and a NaN-free input series, pandas computes
`y[0] = x[0]` and `y[i] = a*x[i] + (1-a)*y[i-1]`. -/

/-- Tail of the `adjust=False` EWM recurrence: `prev` is the mean so far,
each new observation `x` contributes `a*x + (1-a)*prev`. -/
def ewmRec (a : ℚ) (prev : ℚ) : List ℚ → List ℚ
  | [] => []
  | x :: xs => (a * x + (1 - a) * prev) :: ewmRec a (a * x + (1 - a) * prev) xs

/-- `Series.ewm(alpha=a, adjust=False).mean()` on a NaN-free series:
the first observation seeds the recurrence. -/
def ewmAdjustFalse (a : ℚ) : List ℚ → List ℚ
  | [] => []
  | x :: xs => x :: ewmRec a x xs

/-! ## RSI (`compute_rsi` in `utils.py`)

```python
delta = df[col].diff()
gain = delta.clip(lower=0)
loss = -delta.clip(upper=0)
avg_gain = gain.ewm(alpha=1/window, adjust=False).mean()
avg_loss = loss.ewm(alpha=1/window, adjust=False).mean()
rs = avg_gain / avg_loss
df["rsi"] = 100 - (100 / (1 + rs))
```

`diff()` puts `NaN` at index 0; `clip` keeps it, and the EWM therefore
starts (seeds) at index 1, the first delta.  The embedding keeps the
delta-indexed part of each column as a plain list (entries 1..n-1 of the
pandas column) and re-attaches the index-0 `NaN` as a leading `none` in
`compute_rsi`. -/

/-- `df[col].diff()` without its leading `NaN`: entry `i` is
`price[i+1] - price[i]`. -/
def deltas (prices : List ℚ) : List ℚ :=
  List.zipWith (fun cur prev => cur - prev) prices.tail prices

/-- `delta.clip(lower=0)` applied to the deltas. -/
def gains (prices : List ℚ) : List ℚ :=
  (deltas prices).map (fun d => max d 0)

/-- `-delta.clip(upper=0)` applied to the deltas. -/
def losses (prices : List ℚ) : List ℚ :=
  (deltas prices).map (fun d => max (-d) 0)

/-- `gain.ewm(alpha=1/window, adjust=False).mean()`, restricted to the
delta-bearing indices (the index-0 entry of the pandas column is `NaN`). -/
def avg_gain (prices : List ℚ) (window : ℕ) : List ℚ :=
  ewmAdjustFalse (1 / (window : ℚ)) (gains prices)

/-- `loss.ewm(alpha=1/window, adjust=False).mean()`, restricted to the
delta-bearing indices. -/
def avg_loss (prices : List ℚ) (window : ℕ) : List ℚ :=
  ewmAdjustFalse (1 / (window : ℚ)) (losses prices)

/-- Float semantics of `100 - (100 / (1 + g/l))` for finite `g, l ≥ 0`:
`l = 0, g ≠ 0` gives `rs = inf` and the expression collapses to `100`;
`l = 0, g = 0` gives `rs = NaN` which propagates (`none`); otherwise the
value is finite. -/
def rsiAt (g l : ℚ) : Option ℚ :=
  if l = 0 then
    if g = 0 then none else some 100
  else some (100 - 100 / (1 + g / l))

/-- The `rsi` column of `compute_rsi`: index 0 is the `NaN` propagated
from `diff()`; index `i+1` combines `avg_gain`/`avg_loss` entry `i`. -/
def compute_rsi (prices : List ℚ) (window : ℕ) : List (Option ℚ) :=
  match prices with
  | [] => []
  | _ :: _ =>
      none :: List.zipWith rsiAt (avg_gain prices window) (avg_loss prices window)

/-! ## MACD (`compute_macd` in `utils.py`)

```python
ema_fast = df[col].ewm(span=fast, adjust=False).mean()
ema_slow = df[col].ewm(span=slow, adjust=False).mean()
df["macd"] = ema_fast - ema_slow
df["macd_signal"] = df["macd"].ewm(span=signal, adjust=False).mean()
df["macd_hist"] = df["macd"] - df["macd_signal"]
```

`ewm(span=s)` uses smoothing factor `alpha = 2/(s+1)`. -/

/-- `Series.ewm(span=span, adjust=False).mean()`. -/
def ema (span : ℕ) (xs : List ℚ) : List ℚ :=
  ewmAdjustFalse (2 / ((span : ℚ) + 1)) xs

/-- The `macd` column: `ema_fast - ema_slow`. -/
def macd (prices : List ℚ) (fast slow : ℕ) : List ℚ :=
  List.zipWith (fun a b => a - b) (ema fast prices) (ema slow prices)

/-- The `macd_signal` column: EMA of the `macd` column, span `signal`. -/
def macd_signal (prices : List ℚ) (fast slow signal : ℕ) : List ℚ :=
  ema signal (macd prices fast slow)

/-- The `macd_hist` column: `macd - macd_signal`. -/
def macd_hist (prices : List ℚ) (fast slow signal : ℕ) : List ℚ :=
  List.zipWith (fun a b => a - b) (macd prices fast slow)
    (macd_signal prices fast slow signal)

/-! ## Rolling statistics (`add_rolling` in `utils.py`; `rolling_mean`
and `volatility` columns in `app.py` tab 1)

`s.rolling(w).mean()` / `s.rolling(w).std()` use the trailing inclusive
window `s[i-w+1..i]`, emitting `NaN` while the window is not yet full;
`.std()` uses `ddof=1` (Bessel), so `w = 1` additionally yields `NaN` at
every index (pandas only computes the variance when `nobs > ddof`). -/

/-- The trailing inclusive window ending at index `i`:
`xs[i-w+1..i]` (truncated at the left end of the series). -/
def windowAt (xs : List ℚ) (w i : ℕ) : List ℚ :=
  (xs.take (i + 1)).drop (i + 1 - w)

/-- `s.rolling(window=w).mean()`: `NaN` (`none`) until the window is
full, then the arithmetic mean of the trailing window. -/
def rollingMean (xs : List ℚ) (w : ℕ) : List (Option ℚ) :=
  (List.range xs.length).map (fun i =>
    if i + 1 < w then none
    else some ((windowAt xs w i).sum / (w : ℚ)))

/-- The square of `s.rolling(window=w).std()` (the `volatility` column):
`s.rolling(w).std()` is the square root of this series, entry by entry.
pandas emits `NaN` while the window is not full and, because `ddof=1`,
also for `w = 1` at every index (`nobs > ddof` fails); otherwise the
sample variance with Bessel's correction (divisor `w - 1`). -/
def rollingVar (xs : List ℚ) (w : ℕ) : List (Option ℚ) :=
  (List.range xs.length).map (fun i =>
    if i + 1 < w ∨ w < 2 then none
    else some (((windowAt xs w i).map
      (fun x => (x - (windowAt xs w i).sum / (w : ℚ)) ^ 2)).sum / ((w : ℚ) - 1)))

/-! ## Movers & alerts engine (`app.py` tab 3)

```python
merged = pd.merge(last_snap[['name', 'quote.USD.price']],
                  prev_snap[['name', 'quote.USD.price']],
                  on='name', suffixes=('_new', '_old'))
merged['pct_change'] = ((merged['quote.USD.price_new'] -
                         merged['quote.USD.price_old']) /
                        merged['quote.USD.price_old']) * 100
top_gainers = merged.nlargest(5, 'pct_change')...
alerts = merged[merged['pct_change'].abs() > threshold]
```

A snapshot is the cross-section at one timestamp: `(name, price)` rows,
one per asset.  `pd.merge(..., on='name')` defaults to an inner join;
a cross-section keys assets uniquely, so the join is a lookup of each
`last_snap` row's name in `prev_snap`.  The division has no zero guard:
a previous price of `0` produces `inf` / `-inf` / `NaN` under float
semantics, captured here by `PctChange`. -/

/-- Result of `(new - old)/old * 100` under IEEE float semantics:
finite value, `+inf`, `-inf`, or `NaN` (`undef`). -/
inductive PctChange where
  | val (q : ℚ)
  | posInf
  | negInf
  | undef
deriving DecidableEq, Repr

/-- `pct_change` of one merged row: `(new - old)/old * 100`; dividing by
`old = 0` gives `+inf` for a positive numerator, `-inf` for a negative
one and `NaN` for `0/0`. -/
def pctChange (newP oldP : ℚ) : PctChange :=
  if oldP = 0 then
    if 0 < newP then .posInf else if newP < 0 then .negInf else .undef
  else .val ((newP - oldP) / oldP * 100)

/-- One row of `merged`: asset name with its latest and previous price. -/
structure MergedRow where
  name : String
  price_new : ℚ
  price_old : ℚ
deriving DecidableEq, Repr

/-- A cross-sectional snapshot: one `(name, price)` row per asset. -/
abbrev Snapshot := List (String × ℚ)

/-- First price recorded for asset `a` in a snapshot. -/
def lookupSnap (a : String) : Snapshot → Option ℚ
  | [] => none
  | (b, p) :: s => if b = a then some p else lookupSnap a s

/-- `pd.merge(last_snap, prev_snap, on='name')` (inner join): each row
of `last_snap` is kept iff its name also appears in `prev_snap`. -/
def merge (last_snap prev_snap : Snapshot) : List MergedRow :=
  last_snap.filterMap (fun r =>
    (lookupSnap r.1 prev_snap).map (fun po => ⟨r.1, r.2, po⟩))

/-- The `pct_change` cell of a merged row. -/
def rowPct (r : MergedRow) : PctChange :=
  pctChange r.price_new r.price_old

/-- `merged['pct_change'].abs() > threshold` on one cell: `abs(±inf)` is
`inf`, which exceeds every finite threshold; any comparison against
`NaN` is false. -/
def alertTriggered (p : PctChange) (t : ℚ) : Bool :=
  match p with
  | .val q => t < |q|
  | .posInf => true
  | .negInf => true
  | .undef => false

/-- The alert set `merged[merged['pct_change'].abs() > threshold]`. -/
def alerts (last_snap prev_snap : Snapshot) (t : ℚ) : List MergedRow :=
  (merge last_snap prev_snap).filter (fun r => alertTriggered (rowPct r) t)

/-- The rows eligible for `nlargest` / `nsmallest` ranking: pandas drops
rows whose sort key is `NaN` but keeps `±inf` rows. -/
def rankingPool (last_snap prev_snap : Snapshot) : List MergedRow :=
  (merge last_snap prev_snap).filter (fun r => rowPct r ≠ PctChange.undef)

/-! ## DataFrame objects and the mutation model

The indicator functions take a pandas DataFrame by reference and follow
a copy-before-write discipline (`df = df.copy()` / `out = df.copy()`,
then column assignment mutates the copy).  To state the frame effect we
model DataFrame objects in an explicit store: a call receives the store
and a reference, may allocate (`copy` / `sort_values` both create fresh
objects) and mutate only what it allocated, and returns the reference
to its result.

The data model guarantees the input series is already sorted ascending
by timestamp with unique timestamps, so `df.sort_values("timestamp")`
is value-preserving here; it still allocates a fresh object. -/

/-- A DataFrame as the indicator functions see it: the input price
column plus the computed columns (empty until assigned).  Computed
columns that can contain `NaN` hold `Option ℚ`. -/
structure DataFrame where
  price : List ℚ
  rolling_col : List (Option ℚ) := []
  rsi_col : List (Option ℚ) := []
  macd_col : List ℚ := []
  macd_signal_col : List ℚ := []
  macd_hist_col : List ℚ := []
deriving DecidableEq, Repr

/-- Value-level effect of `add_rolling`: attach the rolling-mean column
(`out[f"{col}_rolling_{window}"] = out[col].rolling(window).mean()`). -/
def add_rolling_df (df : DataFrame) (window : ℕ) : DataFrame :=
  { df with rolling_col := rollingMean df.price window }

/-- Value-level effect of `compute_rsi`: attach the `rsi` column. -/
def compute_rsi_df (df : DataFrame) (window : ℕ) : DataFrame :=
  { df with rsi_col := compute_rsi df.price window }

/-- Value-level effect of `compute_macd`: attach the `macd`,
`macd_signal` and `macd_hist` columns. -/
def compute_macd_df (df : DataFrame) (fast slow signal : ℕ) : DataFrame :=
  { df with
    macd_col := macd df.price fast slow
    macd_signal_col := macd_signal df.price fast slow signal
    macd_hist_col := macd_hist df.price fast slow signal }

/-- The heap of live DataFrame objects; a reference is an index. -/
structure Store where
  objs : List DataFrame
deriving Repr

/-- Dereference. -/
def Store.read (s : Store) (r : ℕ) : Option DataFrame :=
  s.objs.get? r

/-- Allocate a fresh object (what `df.copy()` / `df.sort_values(...)`
do), returning the new store and the fresh reference. -/
def Store.alloc (s : Store) (d : DataFrame) : Store × ℕ :=
  ({ objs := s.objs ++ [d] }, s.objs.length)

/-- In-place update of the object behind `r` (column assignment). -/
def Store.write (s : Store) (r : ℕ) (d : DataFrame) : Store :=
  { objs := s.objs.set r d }

/-- `add_rolling(df, col, window)` against the store:
`df = df.sort_values("timestamp")` allocates, `out = df.copy()`
allocates, the column assignment mutates `out`, and `out` is returned. -/
def add_rolling_st (s : Store) (r : ℕ) (window : ℕ) : Store × ℕ :=
  match s.read r with
  | none => (s, r)
  | some d =>
      let (s1, _) := s.alloc d
      let (s2, r2) := s1.alloc d
      (s2.write r2 (add_rolling_df d window), r2)

/-- `compute_rsi(df, col, window)` against the store: `df = df.copy()`
allocates, the `rsi` column assignment mutates the copy, and the copy is
returned. -/
def compute_rsi_st (s : Store) (r : ℕ) (window : ℕ) : Store × ℕ :=
  match s.read r with
  | none => (s, r)
  | some d =>
      let (s1, r1) := s.alloc d
      (s1.write r1 (compute_rsi_df d window), r1)

/-- `compute_macd(df, col, fast, slow, signal)` against the store. -/
def compute_macd_st (s : Store) (r : ℕ) (fast slow signal : ℕ) :
    Store × ℕ :=
  match s.read r with
  | none => (s, r)
  | some d =>
      let (s1, r1) := s.alloc d
      (s1.write r1 (compute_macd_df d fast slow signal), r1)

/-! ## List helper lemmas -/

theorem get?_zipWith_some {α β γ : Type} (f : α → β → γ) :
    ∀ (l₁ : List α) (l₂ : List β) (i : ℕ) {a : α} {b : β},
      l₁.get? i = some a → l₂.get? i = some b →
      (List.zipWith f l₁ l₂).get? i = some (f a b) := by
  intro l₁
  induction l₁ with
  | nil => intro l₂ i a b h _; simp at h
  | cons x xs ih =>
    intro l₂ i a b h₁ h₂
    cases l₂ with
    | nil => simp at h₂
    | cons y ys =>
      cases i with
      | zero => simp_all
      | succ j => simpa using ih ys j (by simpa using h₁) (by simpa using h₂)

theorem get?_zipWith_inv {α β γ : Type} (f : α → β → γ) :
    ∀ (l₁ : List α) (l₂ : List β) (i : ℕ) {c : γ},
      (List.zipWith f l₁ l₂).get? i = some c →
      ∃ a b, l₁.get? i = some a ∧ l₂.get? i = some b ∧ c = f a b := by
  intro l₁
  induction l₁ with
  | nil => intro l₂ i c h; simp at h
  | cons x xs ih =>
    intro l₂ i c h
    cases l₂ with
    | nil => simp at h
    | cons y ys =>
      cases i with
      | zero =>
        refine ⟨x, y, by simp, by simp, ?_⟩
        simpa using h.symm
      | succ j =>
        obtain ⟨a, b, ha, hb, hc⟩ := ih ys j (by simpa using h)
        exact ⟨a, b, by simpa using ha, by simpa using hb, hc⟩

/-! ## Structure of the `adjust=False` EWM -/

theorem ewmRec_length (a : ℚ) :
    ∀ (xs : List ℚ) (p : ℚ), (ewmRec a p xs).length = xs.length := by
  intro xs
  induction xs with
  | nil => intro p; rfl
  | cons z zs ih => intro p; simpa [ewmRec] using ih _

theorem ewmAdjustFalse_length (a : ℚ) (xs : List ℚ) :
    (ewmAdjustFalse a xs).length = xs.length := by
  cases xs with
  | nil => rfl
  | cons z zs => simpa [ewmAdjustFalse] using ewmRec_length a zs z

theorem ewmAdjustFalse_head (a : ℚ) (xs : List ℚ) :
    (ewmAdjustFalse a xs).get? 0 = xs.get? 0 := by
  cases xs <;> rfl

theorem ewmRec_rec (a : ℚ) :
    ∀ (xs : List ℚ) (p : ℚ) (i : ℕ) {x y : ℚ},
      xs.get? (i + 1) = some x → (ewmRec a p xs).get? i = some y →
      (ewmRec a p xs).get? (i + 1) = some (a * x + (1 - a) * y) := by
  intro xs
  induction xs with
  | nil => intro p i x y h _; simp at h
  | cons z zs ih =>
    intro p i x y hx hy
    cases i with
    | zero =>
      cases zs with
      | nil => simp at hx
      | cons w ws =>
        obtain rfl : w = x := by simpa using hx
        obtain rfl : a * z + (1 - a) * p = y := by simpa [ewmRec] using hy
        rfl
    | succ j =>
      have hx' : zs.get? (j + 1) = some x := by simpa using hx
      have hy' : (ewmRec a (a * z + (1 - a) * p) zs).get? j = some y := by
        simpa [ewmRec] using hy
      simpa [ewmRec] using ih (a * z + (1 - a) * p) j hx' hy'

theorem ewmAdjustFalse_rec (a : ℚ) (xs : List ℚ) (i : ℕ) {x y : ℚ}
    (hx : xs.get? (i + 1) = some x)
    (hy : (ewmAdjustFalse a xs).get? i = some y) :
    (ewmAdjustFalse a xs).get? (i + 1) = some (a * x + (1 - a) * y) := by
  cases xs with
  | nil => simp at hx
  | cons z zs =>
    cases i with
    | zero =>
      cases zs with
      | nil => simp at hx
      | cons w ws =>
        obtain rfl : w = x := by simpa using hx
        obtain rfl : z = y := by simpa [ewmAdjustFalse] using hy
        simp [ewmAdjustFalse, ewmRec, List.get?]
    | succ j =>
      have hx' : zs.get? (j + 1) = some x := by simpa using hx
      have hy' : (ewmRec a z zs).get? j = some y := by
        simpa [ewmAdjustFalse] using hy
      simpa [ewmAdjustFalse] using ewmRec_rec a zs z j hx' hy'

theorem ewmRec_nonneg (a : ℚ) (h0 : 0 ≤ a) (h1 : a ≤ 1) :
    ∀ (xs : List ℚ) (p : ℚ), 0 ≤ p → (∀ x ∈ xs, 0 ≤ x) →
      ∀ y ∈ ewmRec a p xs, 0 ≤ y := by
  intro xs
  induction xs with
  | nil => intro p _ _ y hy; simp [ewmRec] at hy
  | cons z zs ih =>
    intro p hp hxs y hy
    have hz : 0 ≤ z := hxs z (by simp)
    have hv : 0 ≤ a * z + (1 - a) * p :=
      add_nonneg (mul_nonneg h0 hz) (mul_nonneg (by linarith) hp)
    simp only [ewmRec, List.mem_cons] at hy
    rcases hy with rfl | hy
    · exact hv
    · exact ih (a * z + (1 - a) * p) hv (fun x hx => hxs x (by simp [hx])) y hy

theorem ewmAdjustFalse_nonneg (a : ℚ) (h0 : 0 ≤ a) (h1 : a ≤ 1)
    (xs : List ℚ) (hxs : ∀ x ∈ xs, 0 ≤ x) :
    ∀ y ∈ ewmAdjustFalse a xs, 0 ≤ y := by
  cases xs with
  | nil => intro y hy; simp [ewmAdjustFalse] at hy
  | cons z zs =>
    intro y hy
    have hz : 0 ≤ z := hxs z (by simp)
    simp only [ewmAdjustFalse, List.mem_cons] at hy
    rcases hy with rfl | hy
    · exact hz
    · exact ewmRec_nonneg a h0 h1 zs z hz (fun x hx => hxs x (by simp [hx])) y hy

/-! ## Claim theorems -/

/-- C1: for every price series of length ≥ 2, `avg_gain` and `avg_loss`
are exponentially-weighted moving averages of the per-step gains and
losses with smoothing factor `α = 1/w`: they follow the recurrence
`avg[i] = α·value[i] + (1-α)·avg[i-1]` and are seeded with the first
available delta's value (no simple-average warm-up), and the RSI at
index 0 — which has no prior price and hence no delta — is the
undefined marker (`none`), not zero. -/
theorem rsi_ewma_recurrence_and_undefined_start
    (prices : List ℚ) (w : ℕ) (h2 : 2 ≤ prices.length) :
    (avg_gain prices w).get? 0 = (gains prices).get? 0 ∧
    (avg_loss prices w).get? 0 = (losses prices).get? 0 ∧
    (∀ i : ℕ, ∀ x y : ℚ, (gains prices).get? (i + 1) = some x →
      (avg_gain prices w).get? i = some y →
      (avg_gain prices w).get? (i + 1) =
        some (1 / (w : ℚ) * x + (1 - 1 / (w : ℚ)) * y)) ∧
    (∀ i : ℕ, ∀ x y : ℚ, (losses prices).get? (i + 1) = some x →
      (avg_loss prices w).get? i = some y →
      (avg_loss prices w).get? (i + 1) =
        some (1 / (w : ℚ) * x + (1 - 1 / (w : ℚ)) * y)) ∧
    (compute_rsi prices w).get? 0 = some none := by
  refine ⟨ewmAdjustFalse_head _ _, ewmAdjustFalse_head _ _,
    fun i x y hx hy => ewmAdjustFalse_rec _ _ _ hx hy,
    fun i x y hx hy => ewmAdjustFalse_rec _ _ _ hx hy, ?_⟩
  cases prices with
  | nil => simp at h2
  | cons p ps => rfl

theorem rsi_ewma_recurrence_and_undefined_start_witness :
    (compute_rsi [(1 : ℚ), 2] 14).get? 0 = some none :=
  (rsi_ewma_recurrence_and_undefined_start [(1 : ℚ), 2] 14 (by decide)).2.2.2.2

/-- C2: for every non-empty price series, `macd`, `macd_signal` and
`macd_hist` are all defined from index 0 onward (no undefined leading
region): `ema_fast`/`ema_slow` are EMAs with span-based smoothing factor
`α = 2/(span+1)` seeded with `ema[0] = price[0]`,
`macd[i] = ema_fast[i] - ema_slow[i]`, `macd_signal` is the EMA of the
`macd` series with span `signal` and the same seeding rule, and
`macd_hist[i] = macd[i] - macd_signal[i]`. -/
theorem macd_defined_from_start_with_span_ema
    (prices : List ℚ) (fast slow signal : ℕ) (hne : prices ≠ []) :
    (macd prices fast slow ≠ [] ∧ macd_signal prices fast slow signal ≠ [] ∧
      macd_hist prices fast slow signal ≠ []) ∧
    (macd prices fast slow).length = prices.length ∧
    (macd_signal prices fast slow signal).length = prices.length ∧
    (macd_hist prices fast slow signal).length = prices.length ∧
    (ema fast prices).get? 0 = prices.get? 0 ∧
    (ema slow prices).get? 0 = prices.get? 0 ∧
    (∀ span i : ℕ, ∀ x y : ℚ, prices.get? (i + 1) = some x →
      (ema span prices).get? i = some y →
      (ema span prices).get? (i + 1) =
        some (2 / ((span : ℚ) + 1) * x + (1 - 2 / ((span : ℚ) + 1)) * y)) ∧
    (∀ i : ℕ, ∀ a b : ℚ, (ema fast prices).get? i = some a →
      (ema slow prices).get? i = some b →
      (macd prices fast slow).get? i = some (a - b)) ∧
    macd_signal prices fast slow signal = ema signal (macd prices fast slow) ∧
    (macd_signal prices fast slow signal).get? 0 =
      (macd prices fast slow).get? 0 ∧
    (∀ i : ℕ, ∀ x y : ℚ, (macd prices fast slow).get? (i + 1) = some x →
      (macd_signal prices fast slow signal).get? i = some y →
      (macd_signal prices fast slow signal).get? (i + 1) =
        some (2 / ((signal : ℚ) + 1) * x + (1 - 2 / ((signal : ℚ) + 1)) * y)) ∧
    (∀ i : ℕ, ∀ a b : ℚ, (macd prices fast slow).get? i = some a →
      (macd_signal prices fast slow signal).get? i = some b →
      (macd_hist prices fast slow signal).get? i = some (a - b)) := by
  have hmacd_len : (macd prices fast slow).length = prices.length := by
    simp [macd, List.length_zipWith, ema, ewmAdjustFalse_length]
  have hsig_len :
      (macd_signal prices fast slow signal).length = prices.length := by
    simp [macd_signal, ema, ewmAdjustFalse_length, hmacd_len]
  have hhist_len :
      (macd_hist prices fast slow signal).length = prices.length := by
    simp [macd_hist, List.length_zipWith, hmacd_len, hsig_len]
  have hlen_pos : 0 < prices.length := List.length_pos.mpr hne
  refine ⟨⟨?_, ?_, ?_⟩, hmacd_len, hsig_len, hhist_len,
    ewmAdjustFalse_head _ _, ewmAdjustFalse_head _ _,
    fun span i x y hx hy => ewmAdjustFalse_rec _ _ _ hx hy,
    fun i a b ha hb => get?_zipWith_some _ _ _ i ha hb,
    rfl,
    ewmAdjustFalse_head _ _,
    fun i x y hx hy => ewmAdjustFalse_rec _ _ _ hx hy,
    fun i a b ha hb => get?_zipWith_some _ _ _ i ha hb⟩
  · exact List.length_pos.mp (hmacd_len ▸ hlen_pos)
  · exact List.length_pos.mp (hsig_len ▸ hlen_pos)
  · exact List.length_pos.mp (hhist_len ▸ hlen_pos)

theorem macd_defined_from_start_with_span_ema_witness :
    (ema 12 [(1 : ℚ), 2]).get? 0 = List.get? [(1 : ℚ), 2] 0 :=
  (macd_defined_from_start_with_span_ema [(1 : ℚ), 2] 12 26 9
    (by decide)).2.2.2.2.1

/-- C3: for every series and every positive window `w`, `rolling_mean[i]`
is the arithmetic mean of the trailing inclusive window
`prices[i-w+1..i]` for every index with `i-w+1 ≥ 0`, every earlier index
carries the undefined marker, and for prices `[1,2,3,4,5]` with `w = 3`
the last rolling mean is `4`. -/
theorem rolling_mean_trailing_window_contract
    (xs : List ℚ) (w : ℕ) (hw : 1 ≤ w) :
    (rollingMean xs w).length = xs.length ∧
    (∀ i : ℕ, i < xs.length → w ≤ i + 1 →
      (rollingMean xs w).get? i =
        some (some (((xs.drop (i + 1 - w)).take w).sum / (w : ℚ)))) ∧
    (∀ i : ℕ, i < xs.length → i + 1 < w →
      (rollingMean xs w).get? i = some none) ∧
    (rollingMean [1, 2, 3, 4, 5] 3).get? 4 = some (some 4) := by
  have hget : ∀ i : ℕ, i < xs.length →
      (rollingMean xs w).get? i =
        some (if i + 1 < w then none
          else some ((windowAt xs w i).sum / (w : ℚ))) := by
    intro i hi
    rw [rollingMean, List.get?_map, List.get?_range hi, Option.map_some']
  refine ⟨by simp [rollingMean], ?_, ?_,
    by norm_num [rollingMean, windowAt, List.range_succ]⟩
  · intro i hi hwi
    rw [hget i hi, if_neg (by omega)]
    have hwin : windowAt xs w i = (xs.drop (i + 1 - w)).take w := by
      rw [windowAt, List.drop_take]
      congr 1
      omega
    rw [hwin]
  · intro i hi hiw
    rw [hget i hi, if_pos hiw]

theorem rolling_mean_trailing_window_contract_witness :
    (rollingMean [1, 2, 3, 4, 5] 3).get? 4 = some (some 4) :=
  (rolling_mean_trailing_window_contract [1, 2, 3, 4, 5] 3 (by decide)).2.2.2

/-- C7: for every price series of length ≥ 2 and positive window, every
defined RSI value lies in the closed interval `[0, 100]`. -/
theorem rsi_always_within_0_100 (prices : List ℚ) (w : ℕ) (hw : 1 ≤ w)
    (h2 : 2 ≤ prices.length) (i : ℕ) (q : ℚ)
    (hq : (compute_rsi prices w).get? i = some (some q)) :
    0 ≤ q ∧ q ≤ 100 := by
  cases prices with
  | nil => simp at h2
  | cons p ps =>
    have ha0 : 0 ≤ 1 / (w : ℚ) := by positivity
    have hw1 : (1 : ℚ) ≤ (w : ℚ) := by exact_mod_cast hw
    have ha1 : 1 / (w : ℚ) ≤ 1 := by
      rw [div_le_one (by linarith)]; exact hw1
    cases i with
    | zero => simp [compute_rsi] at hq
    | succ j =>
      have hq' : (List.zipWith rsiAt (avg_gain (p :: ps) w)
          (avg_loss (p :: ps) w)).get? j = some (some q) := by
        simpa [compute_rsi] using hq
      obtain ⟨g, l, hg, hl, hgl⟩ := get?_zipWith_inv rsiAt _ _ j hq'
      have hg0 : 0 ≤ g := by
        refine ewmAdjustFalse_nonneg _ ha0 ha1 _ ?_ g (List.get?_mem hg)
        intro x hx
        simp only [gains, List.mem_map] at hx
        obtain ⟨d, _, rfl⟩ := hx
        exact le_max_right d 0
      have hl0 : 0 ≤ l := by
        refine ewmAdjustFalse_nonneg _ ha0 ha1 _ ?_ l (List.get?_mem hl)
        intro x hx
        simp only [losses, List.mem_map] at hx
        obtain ⟨d, _, rfl⟩ := hx
        exact le_max_right (-d) 0
      rw [rsiAt] at hgl
      by_cases hlz : l = 0
      · rw [if_pos hlz] at hgl
        by_cases hgz : g = 0
        · rw [if_pos hgz] at hgl; exact absurd hgl (by simp)
        · rw [if_neg hgz] at hgl
          obtain rfl : q = 100 := by simpa using hgl
          norm_num
      · rw [if_neg hlz] at hgl
        obtain rfl : q = 100 - 100 / (1 + g / l) := by simpa using hgl
        have hlpos : 0 < l := lt_of_le_of_ne hl0 (Ne.symm hlz)
        have hrs : 0 ≤ g / l := div_nonneg hg0 hl0
        have h1rs : (1 : ℚ) ≤ 1 + g / l := by linarith
        have hdpos : 0 < 100 / (1 + g / l) := by positivity
        have hdle : 100 / (1 + g / l) ≤ 100 :=
          div_le_self (by norm_num) h1rs
        constructor <;> linarith

theorem rsi_always_within_0_100_witness : (0 : ℚ) ≤ 100 ∧ (100 : ℚ) ≤ 100 :=
  rsi_always_within_0_100 [(1 : ℚ), 2] 14 (by decide) (by decide) 1 100
    (by simp [compute_rsi, avg_gain, avg_loss, gains, losses, deltas,
      ewmAdjustFalse, ewmRec, rsiAt, (show (2 : ℚ) - 1 = 1 by norm_num),
      (show max (1 : ℚ) 0 = 1 by norm_num),
      (show max (-(1 : ℚ)) 0 = 0 by norm_num)])

/-- C8: for window `w ≥ 2` the `volatility` column squared is the sample
variance of the trailing window `prices[i-w+1..i]` with Bessel's
correction (divisor `w - 1`) at every full-window index, and for
`w = 1` the column is the undefined marker at every index (the `w-1 = 0`
division is guarded: pandas only computes the statistic when
`nobs > ddof`); for prices `[1,2,3,4,5]`, `w = 3`, the last variance is
`1`. -/
theorem volatility_bessel_divisor_and_w1_guard (xs : List ℚ) (w : ℕ) :
    (rollingVar xs w).length = xs.length ∧
    (∀ i : ℕ, i < xs.length → 2 ≤ w → w ≤ i + 1 →
      (rollingVar xs w).get? i =
        some (some ((((xs.drop (i + 1 - w)).take w).map
          (fun x => (x - ((xs.drop (i + 1 - w)).take w).sum / (w : ℚ)) ^ 2)).sum
            / ((w : ℚ) - 1)))) ∧
    (∀ i : ℕ, i < xs.length → (rollingVar xs 1).get? i = some none) ∧
    (rollingVar [1, 2, 3, 4, 5] 3).get? 4 = some (some 1) := by
  have hget : ∀ (v : ℕ) (i : ℕ), i < xs.length →
      (rollingVar xs v).get? i =
        some (if i + 1 < v ∨ v < 2 then none
          else some (((windowAt xs v i).map
            (fun x => (x - (windowAt xs v i).sum / (v : ℚ)) ^ 2)).sum
              / ((v : ℚ) - 1))) := by
    intro v i hi
    rw [rollingVar, List.get?_map, List.get?_range hi, Option.map_some']
  refine ⟨by simp [rollingVar], ?_, ?_,
    by norm_num [rollingVar, windowAt, List.range_succ]⟩
  · intro i hi hw2 hwi
    rw [hget w i hi, if_neg (by omega)]
    have hwin : windowAt xs w i = (xs.drop (i + 1 - w)).take w := by
      rw [windowAt, List.drop_take]
      congr 1
      omega
    rw [hwin]
  · intro i hi
    rw [hget 1 i hi, if_pos (by omega)]

theorem volatility_bessel_divisor_and_w1_guard_witness :
    (rollingVar [1, 2, 3, 4, 5] 3).get? 4 = some (some 1) :=
  (volatility_bessel_divisor_and_w1_guard [1, 2, 3, 4, 5] 3).2.2.2

/-! ## Snapshot lookup and merge lemmas -/

theorem lookupSnap_mem {a : String} {p : ℚ} :
    ∀ {s : Snapshot}, lookupSnap a s = some p → (a, p) ∈ s := by
  intro s
  induction s with
  | nil => intro h; simp [lookupSnap] at h
  | cons r rs ih =>
    intro h
    obtain ⟨b, q⟩ := r
    by_cases hb : b = a
    · subst hb
      rw [lookupSnap, if_pos rfl] at h
      obtain rfl : q = p := by simpa using h
      exact List.mem_cons_self _ _
    · rw [lookupSnap, if_neg hb] at h
      exact List.mem_cons_of_mem _ (ih h)

theorem mem_lookupSnap :
    ∀ {s : Snapshot}, (s.map Prod.fst).Nodup →
      ∀ {a : String} {p : ℚ}, (a, p) ∈ s → lookupSnap a s = some p := by
  intro s
  induction s with
  | nil => intro _ a p h; simp at h
  | cons r rs ih =>
    intro hnd a p h
    obtain ⟨b, q⟩ := r
    simp only [List.map_cons, List.nodup_cons] at hnd
    rcases List.mem_cons.mp h with heq | hmem
    · cases heq
      rw [lookupSnap, if_pos rfl]
    · have hb : b ≠ a := by
        rintro rfl
        exact hnd.1 (List.mem_map.mpr ⟨(b, p), hmem, rfl⟩)
      rw [lookupSnap, if_neg hb]
      exact ih hnd.2 hmem

theorem mem_merge {last_snap prev_snap : Snapshot} {r : MergedRow} :
    r ∈ merge last_snap prev_snap ↔
      ((r.name, r.price_new) ∈ last_snap ∧
        lookupSnap r.name prev_snap = some r.price_old) := by
  constructor
  · intro h
    obtain ⟨x, hx, hfx⟩ := List.mem_filterMap.mp h
    obtain ⟨po, hpo, hrow⟩ := Option.map_eq_some'.mp hfx
    obtain rfl : MergedRow.mk x.1 x.2 po = r := hrow
    exact ⟨by simpa using hx, hpo⟩
  · rintro ⟨hmem, hlook⟩
    refine List.mem_filterMap.mpr ⟨(r.name, r.price_new), hmem, ?_⟩
    rw [hlook]
    rfl

/-- C4: the alert set contains exactly the assets present in both
snapshots (inner join on asset name; assets in only one snapshot are
dropped, not errored) whose `pct_change = (new-old)/old*100` satisfies
`|pct_change| > threshold` strictly; for previous `{A:100, B:50}` and
latest `{A:110, B:45}` the changes are `+10` and `-10`, both alert at
threshold `9.9` and neither at `10.1`.  (Asset names key a cross-section
uniquely and prices are nonzero, per the data-model preconditions.) -/
theorem alert_set_is_strict_threshold_inner_join
    (last_snap prev_snap : Snapshot) (t : ℚ)
    (hnd : (last_snap.map Prod.fst).Nodup)
    (hpos : ∀ r ∈ prev_snap, r.2 ≠ 0) :
    (∀ a : String,
      (∃ r ∈ alerts last_snap prev_snap t, r.name = a) ↔
      (∃ pn po : ℚ, lookupSnap a last_snap = some pn ∧
        lookupSnap a prev_snap = some po ∧ t < |(pn - po) / po * 100|)) ∧
    pctChange 110 100 = PctChange.val 10 ∧
    pctChange 45 50 = PctChange.val (-10) ∧
    (alerts [("A", 110), ("B", 45)] [("A", 100), ("B", 50)] (99 / 10)).map
      MergedRow.name = ["A", "B"] ∧
    alerts [("A", 110), ("B", 45)] [("A", 100), ("B", 50)] (101 / 10) = [] := by
  refine ⟨?_, by norm_num [pctChange], by norm_num [pctChange],
    by norm_num [alerts, merge, lookupSnap, alertTriggered, rowPct, pctChange,
      List.filterMap_cons, List.filter_cons, abs,
      (show ("A" : String) ≠ "B" by decide), (show ("B" : String) ≠ "A" by decide)],
    by norm_num [alerts, merge, lookupSnap, alertTriggered, rowPct, pctChange,
      List.filterMap_cons, List.filter_cons, abs,
      (show ("A" : String) ≠ "B" by decide), (show ("B" : String) ≠ "A" by decide)]⟩
  intro a
  constructor
  · rintro ⟨r, hr, rfl⟩
    obtain ⟨hmerge, htrig⟩ := List.mem_filter.mp hr
    obtain ⟨hlast, hprev⟩ := mem_merge.mp hmerge
    have hpo : r.price_old ≠ 0 := hpos _ (lookupSnap_mem hprev)
    refine ⟨r.price_new, r.price_old, mem_lookupSnap hnd hlast, hprev, ?_⟩
    have hpct : rowPct r =
        PctChange.val ((r.price_new - r.price_old) / r.price_old * 100) := by
      rw [rowPct, pctChange, if_neg hpo]
    rw [hpct] at htrig
    simpa [alertTriggered] using htrig
  · rintro ⟨pn, po, hpn, hpo, ht⟩
    have hpo0 : po ≠ 0 := hpos _ (lookupSnap_mem hpo)
    refine ⟨⟨a, pn, po⟩, List.mem_filter.mpr ⟨?_, ?_⟩, rfl⟩
    · exact mem_merge.mpr ⟨lookupSnap_mem hpn, hpo⟩
    · have hpct : rowPct ⟨a, pn, po⟩ =
          PctChange.val ((pn - po) / po * 100) := by
        rw [rowPct, pctChange]
        exact if_neg hpo0
      rw [hpct]
      simpa [alertTriggered] using ht

theorem alert_set_is_strict_threshold_inner_join_witness :
    (alerts [("A", 110), ("B", 45)] [("A", 100), ("B", 50)] (99 / 10)).map
      MergedRow.name = ["A", "B"] :=
  (alert_set_is_strict_threshold_inner_join [("A", 110), ("B", 45)]
    [("A", 100), ("B", 50)] (99 / 10)
    (by simp [(show ("A" : String) ≠ "B" by decide)])
    (by norm_num)).2.2.2.1

/-- C5 counterexample: for the flat price series `[5, 5]` with window 3,
the delta at index 1 exists and `avg_loss` there is `0`, yet the RSI is
the undefined marker (`0/0` gives `NaN` in the source), not `100` — so
"`avg_loss[i] == 0` and a delta exists implies `rsi[i] = 100`" is false
as stated. -/
theorem rsi_zero_loss_flat_series_cex :
    (avg_loss [(5 : ℚ), 5] 3).get? 0 = some 0 ∧
    (avg_gain [(5 : ℚ), 5] 3).get? 0 = some 0 ∧
    (compute_rsi [(5 : ℚ), 5] 3).get? 1 = some none ∧
    (compute_rsi [(5 : ℚ), 5] 3).get? 1 ≠ some (some 100) := by
  have h1 : (compute_rsi [(5 : ℚ), 5] 3).get? 1 = some none := by
    norm_num [compute_rsi, avg_gain, avg_loss, gains, losses, deltas,
      ewmAdjustFalse, ewmRec, rsiAt]
  refine ⟨?_, ?_, h1, by rw [h1]; decide⟩ <;>
    norm_num [compute_rsi, avg_gain, avg_loss, gains, losses, deltas,
      ewmAdjustFalse, ewmRec, rsiAt]

/-- C5 amended: whenever `avg_loss[i] = 0` and additionally
`avg_gain[i] ≠ 0`, the RSI at the corresponding series index is exactly
`100` (never infinity or `NaN`); when both averages are `0` (flat
history) the RSI is the undefined marker instead.  In particular for the
strictly increasing series `[10,...,15]` with window 3, `avg_loss` stays
`0` and the RSI is `100` from the first defined index onward. -/
theorem rsi_zero_loss_amended (prices : List ℚ) (w : ℕ) (i : ℕ) (g : ℚ)
    (hg : (avg_gain prices w).get? i = some g) (hgne : g ≠ 0)
    (hl : (avg_loss prices w).get? i = some 0) :
    (compute_rsi prices w).get? (i + 1) = some (some 100) ∧
    compute_rsi [10, 11, 12, 13, 14, 15] 3 =
      [none, some 100, some 100, some 100, some 100, some 100] := by
  constructor
  · cases prices with
    | nil => simp [avg_gain, gains, deltas, ewmAdjustFalse] at hg
    | cons p ps =>
      have hz := get?_zipWith_some rsiAt _ _ i hg hl
      have hval : rsiAt g 0 = some 100 := by
        rw [rsiAt, if_pos rfl, if_neg hgne]
      rw [hval] at hz
      simpa [compute_rsi] using hz
  · norm_num [compute_rsi, avg_gain, avg_loss, gains, losses, deltas,
      ewmAdjustFalse, ewmRec, rsiAt]

theorem rsi_zero_loss_amended_witness :
    (compute_rsi [(1 : ℚ), 2] 14).get? (0 + 1) = some (some 100) :=
  (rsi_zero_loss_amended [(1 : ℚ), 2] 14 0 1
    (by simp [avg_gain, gains, deltas, ewmAdjustFalse,
      (show (2 : ℚ) - 1 = 1 by norm_num), (show max (1 : ℚ) 0 = 1 by norm_num)])
    one_ne_zero
    (by simp [avg_loss, losses, deltas, ewmAdjustFalse,
      (show (2 : ℚ) - 1 = 1 by norm_num),
      (show max (-(1 : ℚ)) 0 = 0 by norm_num)])).1

/-- C6 counterexample: a joined asset whose previous price is exactly
`0` gets `pct_change = +inf` (previous `{A:0}`, latest `{A:10}`), and it
IS included in both the ranking pool and the alert set — the engine does
produce an infinite `pct_change` and does not exclude the asset. -/
theorem movers_zero_prev_price_cex :
    pctChange 10 0 = PctChange.posInf ∧
    (alerts [("A", 10)] [("A", 0)] 5).map MergedRow.name = ["A"] ∧
    (rankingPool [("A", 10)] [("A", 0)]).map MergedRow.name = ["A"] := by
  refine ⟨by norm_num [pctChange], ?_, ?_⟩
  · norm_num [alerts, merge, lookupSnap, alertTriggered, rowPct, pctChange,
      List.filterMap_cons, List.filter_cons]
  · norm_num [rankingPool, merge, lookupSnap, rowPct, pctChange,
      List.filterMap_cons, List.filter_cons,
      (show PctChange.posInf ≠ PctChange.undef by decide)]

/-- C6 amended: a joined asset whose previous price is exactly `0` and
whose latest price is positive receives `pct_change = +inf` and is
included in the ranking pool and in the alert set for every threshold
(rather than being excluded); only the `0 → 0` case yields the undefined
change, which alerting does exclude. -/
theorem movers_zero_prev_price_amended
    (last_snap prev_snap : Snapshot) (t : ℚ) (a : String) (pn : ℚ)
    (hmem : (a, pn) ∈ last_snap) (hold : lookupSnap a prev_snap = some 0)
    (hpn : 0 < pn) :
    pctChange pn 0 = PctChange.posInf ∧
    (∃ r ∈ alerts last_snap prev_snap t,
      r.name = a ∧ rowPct r = PctChange.posInf) ∧
    (∃ r ∈ rankingPool last_snap prev_snap, r.name = a) ∧
    pctChange 0 0 = PctChange.undef ∧
    alertTriggered PctChange.undef t = false := by
  have hpct : pctChange pn 0 = PctChange.posInf := by
    rw [pctChange, if_pos rfl, if_pos hpn]
  have hrow : rowPct ⟨a, pn, 0⟩ = PctChange.posInf := hpct
  have hmerge : (⟨a, pn, 0⟩ : MergedRow) ∈ merge last_snap prev_snap :=
    mem_merge.mpr ⟨hmem, hold⟩
  refine ⟨hpct, ⟨⟨a, pn, 0⟩, ?_, rfl, hrow⟩, ⟨⟨a, pn, 0⟩, ?_, rfl⟩,
    by norm_num [pctChange], rfl⟩
  · exact List.mem_filter.mpr ⟨hmerge, by rw [hrow]; rfl⟩
  · exact List.mem_filter.mpr ⟨hmerge, by rw [hrow]; simp⟩

theorem movers_zero_prev_price_amended_witness :
    pctChange 10 0 = PctChange.posInf :=
  (movers_zero_prev_price_amended [("A", 10)] [("A", 0)] 5 "A" 10
    (by simp) (by simp [lookupSnap]) (by norm_num)).1

/-- C9 counterexample: an indicator computation over an empty series
returns an empty series, and the movers engine on cross-sections with no
overlapping assets returns an empty join, empty alert set and empty
ranking pool — in every case an empty result is returned silently, with
no explicit `InsufficientHistory`-style failure surfaced to the
caller. -/
theorem empty_input_silent_empty_result_cex :
    compute_rsi ([] : List ℚ) 14 = [] ∧
    rollingMean ([] : List ℚ) 5 = [] ∧
    rollingVar ([] : List ℚ) 5 = [] ∧
    macd ([] : List ℚ) 12 26 = [] ∧
    macd_signal ([] : List ℚ) 12 26 9 = [] ∧
    macd_hist ([] : List ℚ) 12 26 9 = [] ∧
    merge [("A", 1)] [("B", 2)] = [] ∧
    alerts [("A", 1)] [("B", 2)] 5 = [] ∧
    rankingPool [("A", 1)] [("B", 2)] = [] := by
  norm_num [compute_rsi, rollingMean, rollingVar, macd, macd_signal,
    macd_hist, ema, ewmAdjustFalse, alerts, rankingPool, merge, lookupSnap,
    List.filterMap_cons, (show ("B" : String) ≠ "A" by decide)]

/-- C9 amended: none of the computations fails on empty or
non-overlapping input; each silently returns an empty result.  Every
indicator computation maps an empty series to an empty series, and the
movers engine maps cross-sections with no overlapping assets to an empty
join and hence an empty alert set and ranking pool (the only
insufficient-history guard in the source is the caller-side check that
at least two snapshot timestamps exist, which skips the engine with an
informational message instead of raising an error). -/
theorem empty_input_silent_empty_result_amended :
    (∀ w : ℕ, compute_rsi [] w = [] ∧ rollingMean [] w = [] ∧
      rollingVar [] w = []) ∧
    (∀ fast slow signal : ℕ, macd [] fast slow = [] ∧
      macd_signal [] fast slow signal = [] ∧
      macd_hist [] fast slow signal = []) ∧
    (∀ (last_snap prev_snap : Snapshot) (t : ℚ),
      (∀ r ∈ last_snap, lookupSnap r.1 prev_snap = none) →
      merge last_snap prev_snap = [] ∧ alerts last_snap prev_snap t = [] ∧
        rankingPool last_snap prev_snap = []) := by
  refine ⟨fun w => ⟨rfl, rfl, rfl⟩,
    fun fast slow signal => ⟨rfl, rfl, rfl⟩, ?_⟩
  intro last_snap prev_snap t hdisj
  have hm : merge last_snap prev_snap = [] := by
    rw [merge, List.filterMap_eq_nil]
    intro r hr
    rw [hdisj r hr]
    rfl
  exact ⟨hm, by rw [alerts, hm]; rfl, by rw [rankingPool, hm]; rfl⟩

theorem empty_input_silent_empty_result_amended_witness :
    merge [("A", (1 : ℚ))] [("B", (2 : ℚ))] = [] ∧
    alerts [("A", (1 : ℚ))] [("B", (2 : ℚ))] 5 = [] ∧
    rankingPool [("A", (1 : ℚ))] [("B", (2 : ℚ))] = [] :=
  empty_input_silent_empty_result_amended.2.2 [("A", 1)] [("B", 2)] 5
    (by simp [lookupSnap, (show ("B" : String) ≠ "A" by decide)])

/-! ## Store evaluation lemmas -/

theorem set_append_length {α : Type} (l : List α) (d x : α) :
    (l ++ [d]).set l.length x = l ++ [x] := by
  induction l with
  | nil => rfl
  | cons a as ih =>
    show a :: ((as ++ [d]).set as.length x) = a :: (as ++ [x])
    rw [ih]

theorem add_rolling_st_eq (s : Store) (r w : ℕ) (d : DataFrame)
    (hd : s.read r = some d) :
    add_rolling_st s r w =
      ({ objs := (s.objs ++ [d]) ++ [add_rolling_df d w] },
        (s.objs ++ [d]).length) := by
  unfold add_rolling_st
  rw [hd]
  simp only [Store.alloc, Store.write]
  rw [set_append_length]

theorem compute_rsi_st_eq (s : Store) (r w : ℕ) (d : DataFrame)
    (hd : s.read r = some d) :
    compute_rsi_st s r w =
      ({ objs := s.objs ++ [compute_rsi_df d w] }, s.objs.length) := by
  unfold compute_rsi_st
  rw [hd]
  simp only [Store.alloc, Store.write]
  rw [set_append_length]

theorem compute_macd_st_eq (s : Store) (r : ℕ) (fast slow signal : ℕ)
    (d : DataFrame) (hd : s.read r = some d) :
    compute_macd_st s r fast slow signal =
      ({ objs := s.objs ++ [compute_macd_df d fast slow signal] },
        s.objs.length) := by
  unfold compute_macd_st
  rw [hd]
  simp only [Store.alloc, Store.write]
  rw [set_append_length]

/-- C10: each indicator transformation (`add_rolling`, `compute_rsi`,
`compute_macd`) leaves the caller's DataFrame object unchanged (all
writes go to freshly allocated copies) and returns a newly produced
frame, and calling the same transformation twice on the same input
yields an identical output frame. -/
theorem indicator_transformations_pure_and_idempotent
    (s : Store) (r : ℕ) (w fast slow signal : ℕ)
    (hr : r < s.objs.length) :
    ((add_rolling_st s r w).1.read r = s.read r ∧
     (compute_rsi_st s r w).1.read r = s.read r ∧
     (compute_macd_st s r fast slow signal).1.read r = s.read r) ∧
    ((add_rolling_st (add_rolling_st s r w).1 r w).1.read
        (add_rolling_st (add_rolling_st s r w).1 r w).2 =
      (add_rolling_st s r w).1.read (add_rolling_st s r w).2 ∧
     (compute_rsi_st (compute_rsi_st s r w).1 r w).1.read
        (compute_rsi_st (compute_rsi_st s r w).1 r w).2 =
      (compute_rsi_st s r w).1.read (compute_rsi_st s r w).2 ∧
     (compute_macd_st (compute_macd_st s r fast slow signal).1
          r fast slow signal).1.read
        (compute_macd_st (compute_macd_st s r fast slow signal).1
          r fast slow signal).2 =
      (compute_macd_st s r fast slow signal).1.read
        (compute_macd_st s r fast slow signal).2) := by
  obtain ⟨d, hd⟩ : ∃ d, s.read r = some d := by
    cases hread : s.read r with
    | none =>
      rw [Store.read, List.get?_eq_none] at hread
      omega
    | some d => exact ⟨d, rfl⟩
  have hroll := add_rolling_st_eq s r w d hd
  have hrsi := compute_rsi_st_eq s r w d hd
  have hmacd := compute_macd_st_eq s r fast slow signal d hd
  have hr1 : r < (s.objs ++ [d]).length := by
    rw [List.length_append]; omega
  have hroll_read : (add_rolling_st s r w).1.read r = s.read r := by
    rw [hroll, Store.read, Store.read, List.get?_append hr1,
      List.get?_append hr]
  have hrsi_read : (compute_rsi_st s r w).1.read r = s.read r := by
    rw [hrsi, Store.read, Store.read, List.get?_append hr]
  have hmacd_read :
      (compute_macd_st s r fast slow signal).1.read r = s.read r := by
    rw [hmacd, Store.read, Store.read, List.get?_append hr]
  refine ⟨⟨hroll_read, hrsi_read, hmacd_read⟩, ?_, ?_, ?_⟩
  · have hd' : (add_rolling_st s r w).1.read r = some d := by
      rw [hroll_read, hd]
    have hroll2 := add_rolling_st_eq (add_rolling_st s r w).1 r w d hd'
    rw [hroll2, hroll, Store.read, Store.read]
    rw [List.get?_concat_length, List.get?_concat_length]
  · have hd' : (compute_rsi_st s r w).1.read r = some d := by
      rw [hrsi_read, hd]
    have hrsi2 := compute_rsi_st_eq (compute_rsi_st s r w).1 r w d hd'
    rw [hrsi2, hrsi, Store.read, Store.read]
    rw [List.get?_concat_length, List.get?_concat_length]
  · have hd' : (compute_macd_st s r fast slow signal).1.read r = some d := by
      rw [hmacd_read, hd]
    have hmacd2 := compute_macd_st_eq
      (compute_macd_st s r fast slow signal).1 r fast slow signal d hd'
    rw [hmacd2, hmacd, Store.read, Store.read]
    rw [List.get?_concat_length, List.get?_concat_length]

theorem indicator_transformations_pure_and_idempotent_witness :
    (add_rolling_st ⟨[{ price := [(1 : ℚ), 2] }]⟩ 0 2).1.read 0 =
      Store.read ⟨[{ price := [(1 : ℚ), 2] }]⟩ 0 :=
  (indicator_transformations_pure_and_idempotent
    ⟨[{ price := [(1 : ℚ), 2] }]⟩ 0 2 12 26 9 (by decide)).1.1

end CryptoDash
